/-
  Verification of the Tucker3 decomposition engine of vmmlib
  (src/include/vmmlib/tucker3_tensor.hpp) against its specification.

  Shallow embedding conventions:
  * Matrices, vectors and 3-tensors are modelled as total functions from
    natural indices to rationals; the compile-time extents (the C++ template
    parameters J1,J2,J3,I1,I2,I3,K1,K2,K3) are passed explicitly to each
    operation, exactly where the C++ code uses them (loop bounds, asserts).
  * `float`/`double` arithmetic is modelled by exact rational arithmetic; the
    C++ widen-to-double / narrow-on-store steps are therefore identities in
    the model.
  * A C++ `assert` is modelled by returning `none` (the assertion aborts the
    program before any write); a completed function returns `some` of the
    mutated object.  Writes the C++ code would perform out of the declared
    extent (undefined behaviour) land at the corresponding index of the
    unbounded function model.
  * Loops that write one row (or column) per iteration are modelled by a
    structurally recursive `copy_rows_from` / `copy_cols_from` over the list
    of visited source indices, mirroring the two loop counters (source index,
    destination index) of the C++ loops.
-/
import Mathlib

namespace Vmml

/-- A matrix, indexed (row, column). -/
def Mat : Type := Nat → Nat → ℚ

/-- A 3-tensor, indexed (i1, i2, i3). -/
def Ten3 : Type := Nat → Nat → Nat → ℚ

/-- A vector. -/
def Vec : Type := Nat → ℚ

/-- The four data members of `tucker3_tensor`: `_core`, `_u1`, `_u2`, `_u3`. -/
structure Tucker3 where
  core : Ten3
  u1 : Mat
  u2 : Mat
  u3 : Mat

/-- `matrix::set_row( i, r )`: overwrite row `i` with `r`. -/
def set_row (A : Mat) (i : Nat) (r : Nat → ℚ) : Mat :=
  fun i' c => if i' = i then r c else A i' c

/-- `matrix::set_column( j, col )`: overwrite column `j` with `col`. -/
def set_column (A : Mat) (j : Nat) (col : Nat → ℚ) : Mat :=
  fun i c => if c = j then col i else A i c

/-- A loop of the shape
    `for( i1 = <first of idxs>, i = pos; more idxs; next idx, ++i )
       dst.set_row( i, rowOf i1 );`
    mirrored with its two counters: the list of visited source indices and
    the running destination index. -/
def copy_rows_from (rowOf : Nat → Nat → ℚ) : List Nat → Nat → Mat → Mat
  | [], _, dst => dst
  | i1 :: rest, pos, dst => copy_rows_from rowOf rest (pos + 1) (set_row dst pos (rowOf i1))

/-- Column analogue of `copy_rows_from`, for the `set_column` loops. -/
def copy_cols_from (colOf : Nat → Nat → ℚ) : List Nat → Nat → Mat → Mat
  | [], _, dst => dst
  | j :: rest, pos, dst => copy_cols_from colOf rest (pos + 1) (set_column dst pos (colOf j))

/-- Number of iterations of a loop `for( i1 = 0; i1 < K; i1 += f )`,
    i.e. `⌈K / f⌉` for `f ≥ 1` (the C++ loop never terminates for `f = 0`;
    every theorem below assumes `1 ≤ f`). -/
def strideCount (K f : Nat) : Nat := (K + f - 1) / f

/-- The source indices `0, f, 2f, …` visited by `for( i1 = 0; i1 < K; i1 += f )`. -/
def strideIdxs (K f : Nat) : List Nat := (List.range (strideCount K f)).map (· * f)

/-!  ### `derive_core`

`derive_core` (tucker3_tensor.hpp:204-227) runs three nested output loops
(`j3`, `j1`, `j2`); for each output cell it accumulates, in a single `double`
accumulator `sum_i1_i2_i3` initialised to `0.0`, the products
`U1(i1,j1) * U2(i2,j2) * U3(i3,j3) * data(i1,i2,i3)` over the three nested
input loops (`i3`, `i1`, `i2`), and stores the accumulator into
`core_(j1,j2,j3)`.  The accumulation loops are mirrored by left folds in the
C++ iteration order; cells outside the `J1×J2×J3` grid keep the previous
contents of `core_`. -/
def derive_core (J1 J2 J3 I1 I2 I3 : Nat) (data : Ten3) (U1 U2 U3 : Mat)
    (core0 : Ten3) : Ten3 :=
  fun j1 j2 j3 =>
    if j1 < J1 ∧ j2 < J2 ∧ j3 < J3 then
      (List.range I3).foldl (fun acc i3 =>
        (List.range I1).foldl (fun acc i1 =>
          (List.range I2).foldl (fun acc i2 =>
            acc + U1 i1 j1 * U2 i2 j2 * U3 i3 j3 * data i1 i2 i3) acc) acc) 0
    else core0 j1 j2 j3

/-- A left fold accumulating `+ f i` over `0, …, n-1` equals the starting
    value plus the range sum. -/
theorem foldl_add_range_sum (f : Nat → ℚ) :
    ∀ (n : Nat) (a : ℚ),
      (List.range n).foldl (fun acc i => acc + f i) a =
        a + ∑ i ∈ Finset.range n, f i := by
  intro n
  induction n with
  | zero => intro a; simp
  | succ n ih =>
    intro a
    rw [List.range_succ, List.foldl_append, ih, Finset.sum_range_succ]
    simp [add_assoc]

/-- Evaluating a row-copy loop whose visited source indices are
    `g 0, g 1, …, g (n-1)`: destination rows `pos, …, pos+n-1` receive the
    corresponding source rows, all other rows are untouched. -/
theorem copy_rows_from_map_range (rowOf : Nat → Nat → ℚ) :
    ∀ (n : Nat) (g : Nat → Nat) (pos : Nat) (dst : Mat) (i c : Nat),
      copy_rows_from rowOf ((List.range n).map g) pos dst i c =
        if pos ≤ i ∧ i < pos + n then rowOf (g (i - pos)) c else dst i c := by
  intro n
  induction n with
  | zero =>
    intro g pos dst i c
    simp only [List.range_zero, List.map_nil, copy_rows_from]
    rw [if_neg (by omega)]
  | succ n ih =>
    intro g pos dst i c
    rw [List.range_succ_eq_map, List.map_cons, List.map_map]
    rw [copy_rows_from, ih]
    by_cases h1 : pos + 1 ≤ i ∧ i < pos + 1 + n
    · rw [if_pos h1, if_pos (by omega)]
      have hg : (g ∘ Nat.succ) (i - (pos + 1)) = g (i - pos) := by
        simp only [Function.comp_apply]
        congr 1
        omega
      rw [hg]
    · rw [if_neg h1]
      simp only [set_row]
      by_cases h2 : i = pos
      · rw [if_pos h2, if_pos (by omega)]
        subst h2
        simp
      · rw [if_neg h2, if_neg (by omega)]

/-- Column analogue of `copy_rows_from_map_range`. -/
theorem copy_cols_from_map_range (colOf : Nat → Nat → ℚ) :
    ∀ (n : Nat) (g : Nat → Nat) (pos : Nat) (dst : Mat) (i c : Nat),
      copy_cols_from colOf ((List.range n).map g) pos dst i c =
        if pos ≤ c ∧ c < pos + n then colOf (g (c - pos)) i else dst i c := by
  intro n
  induction n with
  | zero =>
    intro g pos dst i c
    simp only [List.range_zero, List.map_nil, copy_cols_from]
    rw [if_neg (by omega)]
  | succ n ih =>
    intro g pos dst i c
    rw [List.range_succ_eq_map, List.map_cons, List.map_map]
    rw [copy_cols_from, ih]
    by_cases h1 : pos + 1 ≤ c ∧ c < pos + 1 + n
    · rw [if_pos h1, if_pos (by omega)]
      have hg : (g ∘ Nat.succ) (c - (pos + 1)) = g (c - pos) := by
        simp only [Function.comp_apply]
        congr 1
        omega
      rw [hg]
    · rw [if_neg h1]
      simp only [set_column]
      by_cases h2 : c = pos
      · rw [if_pos h2, if_pos (by omega)]
        subst h2
        simp
      · rw [if_neg h2, if_neg (by omega)]

/-- `transpose( M )` of the external matrix class. -/
def transpose (A : Mat) : Mat := fun i j => A j i

/-- `matrix::multiply( A, B )` with inner extent `n` (external matrix class). -/
def matMul (n : Nat) (A B : Mat) : Mat :=
  fun i j => ∑ k ∈ Finset.range n, A i k * B k j

/-- Modelled from the spec: `tensor3::lateral_matricization` lives in
    tensor3.hpp, which is not under src/.  The spec fixes only the shape
    `I1 × (I2·I3)`; a definite column ordering (`i2` major, `i3` minor) is
    chosen — no claim below depends on the ordering. -/
def lateral_matricization (I3 : Nat) (data : Ten3) : Mat :=
  fun i1 c => data i1 (c / I3) (c % I3)

/-- Modelled from the spec: `tensor3::frontal_matricization` (tensor3.hpp,
    not under src/), shape `I2 × (I1·I3)`, ordering chosen as `i1` major,
    `i3` minor. -/
def frontal_matricization (I3 : Nat) (data : Ten3) : Mat :=
  fun i2 c => data (c / I3) i2 (c % I3)

/-- Modelled from the spec: `tensor3::horizontal_matricization` (tensor3.hpp,
    not under src/), shape `I3 × (I1·I2)`, ordering chosen as `i1` major,
    `i2` minor. -/
def horizontal_matricization (I2 : Nat) (data : Ten3) : Mat :=
  fun i3 c => data (c / I2) (c % I2) i3

/-!  ### `hosvd` and `hosvd_on_eigs`

`hosvd` (tucker3_tensor.hpp:123-165) matricizes the data along each mode,
widens each matricization to `double` (exact here), runs the injected SVD
solver `lapack_svd::compute_and_overwrite_input` on it — the solver
overwrites its input matrix with the left singular vectors, fills a vector of
singular values, and returns a success flag — and assigns the overwritten
matrix to the corresponding basis member.  The local `ok` receives each
solver's flag but is never tested, which the model mirrors by discarding the
`Bool` component.  The spec's solver contract
`solve(matrix) → (orthogonalBasisMatrix, singularValueVector, successFlag)`
is the function argument `svd`. -/
def hosvd (svd : Mat → Mat × Vec × Bool) (I1 I2 I3 : Nat) (data : Ten3)
    (st : Tucker3) : Tucker3 :=
  let m_lateral := lateral_matricization I3 data
  let m_frontal := frontal_matricization I3 data
  let m_horizontal := horizontal_matricization I2 data
  let r1 := svd m_lateral
  let r2 := svd m_frontal
  let r3 := svd m_horizontal
  { st with u1 := r1.1, u2 := r2.1, u3 := r3.1 }

/-- `hosvd_on_eigs` (tucker3_tensor.hpp:170-199): matricizes the data, forms
    the three covariance matrices `s_k = A_k · A_kᵀ` into locals, and then —
    the eigendecomposition being unimplemented — returns without writing any
    member of the decomposition. -/
def hosvd_on_eigs (I1 I2 I3 : Nat) (data : Ten3) (st : Tucker3) : Tucker3 :=
  let m_lateral := lateral_matricization I3 data
  let m_frontal := frontal_matricization I3 data
  let m_horizontal := horizontal_matricization I2 data
  let _s1 := matMul (I2 * I3) m_lateral (transpose m_lateral)
  let _s2 := matMul (I1 * I3) m_frontal (transpose m_frontal)
  let _s3 := matMul (I1 * I2) m_horizontal (transpose m_horizontal)
  st

/-- `decomposition` (tucker3_tensor.hpp:111-118): `hosvd` then `derive_core`
    against the freshly computed bases. -/
def decomposition (svd : Mat → Mat × Vec × Bool) (J1 J2 J3 I1 I2 I3 : Nat)
    (data : Ten3) (st : Tucker3) : Tucker3 :=
  let st1 := hosvd svd I1 I2 I3 data st
  { st1 with core := derive_core J1 J2 J3 I1 I2 I3 data st1.u1 st1.u2 st1.u3 st1.core }

/-- C2: the success flag returned by the injected SVD solver is unobservable
    in the results of `hosvd` and `decomposition` — with the matrix and
    singular-value outputs fixed, flipping the solver's flag from failure to
    success changes nothing, so a non-converging solve is never surfaced to
    the caller (the entry points have no error channel at all). -/
theorem hosvd_ignores_solver_failure (svdM : Mat → Mat) (svdV : Mat → Vec)
    (b b' : Bool) (J1 J2 J3 I1 I2 I3 : Nat) (data : Ten3) (st : Tucker3) :
    hosvd (fun m => (svdM m, svdV m, b)) I1 I2 I3 data st =
        hosvd (fun m => (svdM m, svdV m, b')) I1 I2 I3 data st ∧
      decomposition (fun m => (svdM m, svdV m, b)) J1 J2 J3 I1 I2 I3 data st =
        decomposition (fun m => (svdM m, svdV m, b')) J1 J2 J3 I1 I2 I3 data st :=
  ⟨rfl, rfl⟩

/-- C9: `hosvd_on_eigs` leaves the whole decomposition unchanged — the
    covariance matrices are computed into locals and discarded, and neither
    the core nor any basis matrix is assigned. -/
theorem hosvd_on_eigs_leaves_state_unchanged (I1 I2 I3 : Nat) (data : Ten3)
    (st : Tucker3) :
    (hosvd_on_eigs I1 I2 I3 data st).core = st.core ∧
      (hosvd_on_eigs I1 I2 I3 data st).u1 = st.u1 ∧
      (hosvd_on_eigs I1 I2 I3 data st).u2 = st.u2 ∧
      (hosvd_on_eigs I1 I2 I3 data st).u3 = st.u3 :=
  ⟨rfl, rfl, rfl, rfl⟩

/-- C10: `hosvd` writes only the three basis members; the core member of the
    decomposition is exactly what it was before the call. -/
theorem hosvd_preserves_core (svd : Mat → Mat × Vec × Bool) (I1 I2 I3 : Nat)
    (data : Ten3) (st : Tucker3) :
    (hosvd svd I1 I2 I3 data st).core = st.core :=
  rfl

/-- For `f ≥ 1`, the loop `for( i1 = 0; i1 < K; i1 += f )` performs exactly
    `⌈K / f⌉` iterations: the `t`-th iteration exists iff `t·f < K`. -/
theorem lt_strideCount_iff (K f t : Nat) (hf : 1 ≤ f) :
    t < strideCount K f ↔ t * f < K := by
  unfold strideCount
  rw [Nat.lt_iff_add_one_le, Nat.le_div_iff_mul_le (by omega : 0 < f), add_mul,
    one_mul]
  omega

/-!  ### Rank/structure editors

Each editor mutates the destination decomposition `dst` (the C++ `this`)
from a source decomposition `other`; the leading `assert` block is modelled
as a guard returning `none` (the assertions run before any write).  The
asserts below are transcribed literally from the source — note that
`subsampling`, `subsampling_on_average` and `region_of_interest` all compare
`I1` (not `I2`, `I3`) against `K2` and `K3`. -/

/-- `progressive_rank_reduction` (tucker3_tensor.hpp:234-274): asserts
    `J1 ≤ K1`, `J2 ≤ K2`, `J3 ≤ K3`; copies columns `0, …, J_k-1` of each
    source basis (a `set_column` loop, mirrored by `copy_cols_from` over
    `List.range J_k`), then copies the leading `J1×J2×J3` block of the core
    cell by cell (the triple loop writes each in-block cell once; cells
    outside the block keep the destination's previous contents). -/
def progressive_rank_reduction (J1 J2 J3 K1 K2 K3 : Nat)
    (other dst : Tucker3) : Option Tucker3 :=
  if J1 ≤ K1 ∧ J2 ≤ K2 ∧ J3 ≤ K3 then
    some
      { u1 := copy_cols_from (fun j i => other.u1 i j) (List.range J1) 0 dst.u1
        u2 := copy_cols_from (fun j i => other.u2 i j) (List.range J2) 0 dst.u2
        u3 := copy_cols_from (fun j i => other.u3 i j) (List.range J3) 0 dst.u3
        core := fun j1 j2 j3 =>
          if j1 < J1 ∧ j2 < J2 ∧ j3 < J3 then other.core j1 j2 j3
          else dst.core j1 j2 j3 }
  else none

/-- `subsampling` (tucker3_tensor.hpp:281-307): asserts `I1 ≤ K1`,
    `I1 ≤ K2`, `I1 ≤ K3` (sic — `I1` three times); copies source row `i·f`
    to destination row `i` for each mode, then copies the core unchanged. -/
def subsampling (f I1 K1 K2 K3 : Nat) (other dst : Tucker3) : Option Tucker3 :=
  if I1 ≤ K1 ∧ I1 ≤ K2 ∧ I1 ≤ K3 then
    some
      { u1 := copy_rows_from (fun i1 c => other.u1 i1 c) (strideIdxs K1 f) 0 dst.u1
        u2 := copy_rows_from (fun i2 c => other.u2 i2 c) (strideIdxs K2 f) 0 dst.u2
        u3 := copy_rows_from (fun i3 c => other.u3 i3 c) (strideIdxs K3 f) 0 dst.u3
        core := other.core }
  else none

/-- The averaged row of `subsampling_on_average`, per column `c` (the C++
    code accumulates a whole `vector< J, T >` row; the model accumulates each
    entry): `tmp_row` starts as row `i1`, the inner loop
    `for( j = i1+1; (j < factor+i1) & (j < K); ++j, ++num_items_averaged )`
    adds rows `i1+1, …, min(factor+i1, K)-1`, and `tmp_row` is divided by
    `num_items_averaged` (which starts at 1 and counts the iterations). -/
def avg_row (u : Mat) (K f i1 : Nat) (c : Nat) : ℚ :=
  let tmp := (List.range' (i1 + 1) (min (f + i1) K - (i1 + 1))).foldl
    (fun acc j => acc + u j c) (u i1 c)
  let num : Nat := 1 + (min (f + i1) K - (i1 + 1))
  tmp / (num : ℚ)

/-- `subsampling_on_average` (tucker3_tensor.hpp:313-358): same asserts and
    row indexing as `subsampling`.  For mode 1 the averaged `tmp_row` is
    stored (`_u1.set_row( i, tmp_row )`, line 330); for modes 2 and 3 the
    averaged row is computed but the *un-averaged* source row is stored
    (`_u2.set_row( i, u2.get_row( i2 ) )`, line 342, and
    `_u3.set_row( i, u3.get_row( i3 ) )`, line 354).  The core is copied
    unchanged. -/
def subsampling_on_average (f I1 K1 K2 K3 : Nat) (other dst : Tucker3) :
    Option Tucker3 :=
  if I1 ≤ K1 ∧ I1 ≤ K2 ∧ I1 ≤ K3 then
    some
      { u1 := copy_rows_from (fun i1 c => avg_row other.u1 K1 f i1 c)
          (strideIdxs K1 f) 0 dst.u1
        u2 := copy_rows_from
          (fun i2 c =>
            let _tmp_row := avg_row other.u2 K2 f i2 c
            other.u2 i2 c)
          (strideIdxs K2 f) 0 dst.u2
        u3 := copy_rows_from
          (fun i3 c =>
            let _tmp_row := avg_row other.u3 K3 f i3 c
            other.u3 i3 c)
          (strideIdxs K3 f) 0 dst.u3
        core := other.core }
  else none

/-- `region_of_interest` (tucker3_tensor.hpp:366-402): asserts `I1 ≤ K1`,
    `I1 ≤ K2`, `I1 ≤ K3` (sic), `start_k < end_k`, and `end_k < K_k`
    (strict); copies source rows `start_k, …, end_k-1` to destination rows
    `0, …`, core unchanged. -/
def region_of_interest (I1 K1 K2 K3 s1 e1 s2 e2 s3 e3 : Nat)
    (other dst : Tucker3) : Option Tucker3 :=
  if I1 ≤ K1 ∧ I1 ≤ K2 ∧ I1 ≤ K3 ∧ s1 < e1 ∧ s2 < e2 ∧ s3 < e3 ∧
      e1 < K1 ∧ e2 < K2 ∧ e3 < K3 then
    some
      { u1 := copy_rows_from (fun i1 c => other.u1 i1 c)
          ((List.range (e1 - s1)).map (s1 + ·)) 0 dst.u1
        u2 := copy_rows_from (fun i2 c => other.u2 i2 c)
          ((List.range (e2 - s2)).map (s2 + ·)) 0 dst.u2
        u3 := copy_rows_from (fun i3 c => other.u3 i3 c)
          ((List.range (e3 - s3)).map (s3 + ·)) 0 dst.u3
        core := other.core }
  else none

/-- Concrete tensor used by witnesses. -/
def dataW : Ten3 := fun i1 i2 i3 => (i1 : ℚ) + 2 * i2 + 3 * i3 + 1

/-- Concrete basis matrices and core used by witnesses. -/
def U1W : Mat := fun i _ => if i = 0 then 1 else 2

def U2W : Mat := fun i _ => if i = 0 then 0 else 2

def U3W : Mat := fun i _ => if i = 0 then 1 else 3

def coreW : Ten3 := fun _ _ _ => 7

/-- A concrete source decomposition used by witnesses and counterexamples. -/
def otherW : Tucker3 :=
  { core := fun j1 j2 j3 => (j1 : ℚ) + 2 * j2 + 4 * j3 + 1
    u1 := U1W
    u2 := U2W
    u3 := U3W }

/-- A concrete destination decomposition (pre-call contents all 5/9), used to
    observe which cells an editor writes. -/
def dstW : Tucker3 :=
  { core := fun _ _ _ => 9
    u1 := fun _ _ => 5
    u2 := fun _ _ => 5
    u3 := fun _ _ => 5 }

/-- Closed form of `avg_row` for a row start `i1 < K` and factor `f ≥ 1`:
    the unweighted mean of the `min f (K - i1)` source rows starting at
    `i1`. -/
theorem avg_row_eval (u : Mat) (K f i1 : Nat) (hf : 1 ≤ f) (hi : i1 < K)
    (c : Nat) :
    avg_row u K f i1 c =
      (∑ t ∈ Finset.range (min f (K - i1)), u (i1 + t) c) /
        ((min f (K - i1) : Nat) : ℚ) := by
  have hn : min f (K - i1) = (min (f + i1) K - (i1 + 1)) + 1 := by omega
  simp only [avg_row, List.range'_eq_map_range, List.foldl_map,
    foldl_add_range_sum]
  rw [hn, Finset.sum_range_succ']
  have hsum : (∑ t ∈ Finset.range (min (f + i1) K - (i1 + 1)), u (i1 + 1 + t) c) =
      ∑ t ∈ Finset.range (min (f + i1) K - (i1 + 1)), u (i1 + (t + 1)) c := by
    refine Finset.sum_congr rfl fun t _ => ?_
    have ht : i1 + 1 + t = i1 + (t + 1) := by omega
    rw [ht]
  have hone : 1 + (min (f + i1) K - (i1 + 1)) = (min (f + i1) K - (i1 + 1)) + 1 := by
    omega
  rw [hsum, hone, add_comm (u i1 c)]
  norm_num

/-- C6: under the per-mode rank precondition `J_k ≤ K_k`,
    `progressive_rank_reduction` succeeds, copies the first `J_k` columns of
    each source basis into the destination basis, and copies the leading
    `J1×J2×J3` sub-block of the source core into the destination core. -/
theorem progressive_rank_reduction_correct (J1 J2 J3 K1 K2 K3 : Nat)
    (other dst : Tucker3) (h1 : J1 ≤ K1) (h2 : J2 ≤ K2) (h3 : J3 ≤ K3) :
    ∃ res, progressive_rank_reduction J1 J2 J3 K1 K2 K3 other dst = some res ∧
      (∀ i j, j < J1 → res.u1 i j = other.u1 i j) ∧
      (∀ i j, j < J2 → res.u2 i j = other.u2 i j) ∧
      (∀ i j, j < J3 → res.u3 i j = other.u3 i j) ∧
      (∀ j1 j2 j3, j1 < J1 → j2 < J2 → j3 < J3 →
        res.core j1 j2 j3 = other.core j1 j2 j3) := by
  unfold progressive_rank_reduction
  rw [if_pos ⟨h1, h2, h3⟩]
  refine ⟨_, rfl, ?_, ?_, ?_, ?_⟩
  · intro i j hj
    show copy_cols_from (fun j i => other.u1 i j) (List.range J1) 0 dst.u1 i j =
      other.u1 i j
    rw [← List.map_id (List.range J1), copy_cols_from_map_range]
    rw [if_pos ⟨Nat.zero_le _, by omega⟩]
    simp
  · intro i j hj
    show copy_cols_from (fun j i => other.u2 i j) (List.range J2) 0 dst.u2 i j =
      other.u2 i j
    rw [← List.map_id (List.range J2), copy_cols_from_map_range]
    rw [if_pos ⟨Nat.zero_le _, by omega⟩]
    simp
  · intro i j hj
    show copy_cols_from (fun j i => other.u3 i j) (List.range J3) 0 dst.u3 i j =
      other.u3 i j
    rw [← List.map_id (List.range J3), copy_cols_from_map_range]
    rw [if_pos ⟨Nat.zero_le _, by omega⟩]
    simp
  · intro j1 j2 j3 hj1 hj2 hj3
    show (if j1 < J1 ∧ j2 < J2 ∧ j3 < J3 then other.core j1 j2 j3
      else dst.core j1 j2 j3) = other.core j1 j2 j3
    rw [if_pos ⟨hj1, hj2, hj3⟩]

/-- Witness for C6: rank reduction from a (2,2,2)-rank source to a
    (1,1,1)-rank destination. -/
theorem progressive_rank_reduction_correct_witness :
    (1 ≤ 2 ∧ 1 ≤ 2 ∧ 1 ≤ 2) ∧
      (∃ res, progressive_rank_reduction 1 1 1 2 2 2 otherW dstW = some res ∧
        (∀ i j, j < 1 → res.u1 i j = otherW.u1 i j) ∧
        (∀ i j, j < 1 → res.u2 i j = otherW.u2 i j) ∧
        (∀ i j, j < 1 → res.u3 i j = otherW.u3 i j) ∧
        (∀ j1 j2 j3, j1 < 1 → j2 < 1 → j3 < 1 →
          res.core j1 j2 j3 = otherW.core j1 j2 j3)) :=
  ⟨⟨by decide, by decide, by decide⟩,
    progressive_rank_reduction_correct 1 1 1 2 2 2 otherW dstW
      (by decide) (by decide) (by decide)⟩

/-- C3 (amended): under the code's asserts and `f ≥ 1`,
    `subsampling_on_average` succeeds; each written mode-1 destination row
    `i` is the unweighted mean of the `min f (K1 - i·f)` consecutive source
    rows starting at `i·f`, but each written mode-2 and mode-3 destination
    row `i` is the single, un-averaged source row `i·f` (the computed
    average is discarded); the core is copied unchanged. -/
theorem subsampling_on_average_mode1_mean_modes23_nearest
    (f I1 K1 K2 K3 : Nat) (other dst : Tucker3)
    (hf : 1 ≤ f) (h1 : I1 ≤ K1) (h2 : I1 ≤ K2) (h3 : I1 ≤ K3) :
    ∃ res, subsampling_on_average f I1 K1 K2 K3 other dst = some res ∧
      (∀ i c, i * f < K1 →
        res.u1 i c =
          (∑ t ∈ Finset.range (min f (K1 - i * f)), other.u1 (i * f + t) c) /
            ((min f (K1 - i * f) : Nat) : ℚ)) ∧
      (∀ i c, i * f < K2 → res.u2 i c = other.u2 (i * f) c) ∧
      (∀ i c, i * f < K3 → res.u3 i c = other.u3 (i * f) c) ∧
      res.core = other.core := by
  unfold subsampling_on_average
  rw [if_pos ⟨h1, h2, h3⟩]
  refine ⟨_, rfl, ?_, ?_, ?_, rfl⟩
  · intro i c hi
    show copy_rows_from (fun i1 c => avg_row other.u1 K1 f i1 c)
      (strideIdxs K1 f) 0 dst.u1 i c = _
    unfold strideIdxs
    rw [copy_rows_from_map_range,
      if_pos ⟨Nat.zero_le _, by
        rw [Nat.zero_add]
        exact (lt_strideCount_iff K1 f i hf).mpr hi⟩]
    simp only [Nat.sub_zero]
    exact avg_row_eval other.u1 K1 f (i * f) hf hi c
  · intro i c hi
    show copy_rows_from
      (fun i2 c => let _tmp_row := avg_row other.u2 K2 f i2 c; other.u2 i2 c)
      (strideIdxs K2 f) 0 dst.u2 i c = _
    unfold strideIdxs
    rw [copy_rows_from_map_range,
      if_pos ⟨Nat.zero_le _, by
        rw [Nat.zero_add]
        exact (lt_strideCount_iff K2 f i hf).mpr hi⟩]
    simp only [Nat.sub_zero]
  · intro i c hi
    show copy_rows_from
      (fun i3 c => let _tmp_row := avg_row other.u3 K3 f i3 c; other.u3 i3 c)
      (strideIdxs K3 f) 0 dst.u3 i c = _
    unfold strideIdxs
    rw [copy_rows_from_map_range,
      if_pos ⟨Nat.zero_le _, by
        rw [Nat.zero_add]
        exact (lt_strideCount_iff K3 f i hf).mpr hi⟩]
    simp only [Nat.sub_zero]

/-- Witness for the amended C3: factor-2 averaged subsampling of a source
    with spatial extents (2,2,2) into a destination with extents (1,1,1). -/
theorem subsampling_on_average_amended_witness :
    (1 ≤ 2 ∧ 1 ≤ 2 ∧ 1 ≤ 2 ∧ 1 ≤ 2) ∧
      (∃ res, subsampling_on_average 2 1 2 2 2 otherW dstW = some res ∧
        (∀ i c, i * 2 < 2 →
          res.u1 i c =
            (∑ t ∈ Finset.range (min 2 (2 - i * 2)), otherW.u1 (i * 2 + t) c) /
              ((min 2 (2 - i * 2) : Nat) : ℚ)) ∧
        (∀ i c, i * 2 < 2 → res.u2 i c = otherW.u2 (i * 2) c) ∧
        (∀ i c, i * 2 < 2 → res.u3 i c = otherW.u3 (i * 2) c) ∧
        res.core = otherW.core) :=
  ⟨⟨by decide, by decide, by decide, by decide⟩,
    subsampling_on_average_mode1_mean_modes23_nearest 2 1 2 2 2 otherW dstW
      (by decide) (by decide) (by decide) (by decide)⟩

/-- Counterexample for C3 as stated: source spatial extents (1,2,1), factor
    2, destination extents (1,1,1).  The claim requires destination mode-2
    row 0 to be the mean of the `min 2 (2-0) = 2` source rows 0 and 1, i.e.
    `(u2[0,0]+u2[1,0])/2 = 1/2`; the code stores the un-averaged source row
    0 instead, value `0`. -/
theorem subsampling_on_average_mode2_row_not_mean :
    (subsampling_on_average 2 1 1 2 1 otherW dstW).map (fun r => r.u2 0 0) =
        some (otherW.u2 0 0) ∧
      otherW.u2 0 0 ≠ (otherW.u2 0 0 + otherW.u2 1 0) / 2 := by
  constructor
  · unfold subsampling_on_average
    rw [if_pos (by omega : (1 : ℕ) ≤ 1 ∧ (1 : ℕ) ≤ 2 ∧ (1 : ℕ) ≤ 1)]
    rw [Option.map_some']
    congr 1
  · norm_num [otherW, U2W]

/-- C4: evaluation at a failing input.  Source spatial extents
    `K = (3,3,3)`, destination extent `I1 = 1`, row ranges `[0,3)`, `[0,2)`,
    `[0,2)`: the claim's preconditions `start_k < end_k ≤ K_k` all hold
    (first conjunct), yet `region_of_interest` aborts — its assertion is the
    strict `end_index1 < K1`, so `end_1 = K_1 = 3` is rejected and no row is
    copied. -/
theorem region_of_interest_rejects_end_eq_extent :
    ((0 < 3 ∧ 3 ≤ 3) ∧ (0 < 2 ∧ 2 ≤ 3) ∧ (0 < 2 ∧ 2 ≤ 3)) ∧
      region_of_interest 1 3 3 3 0 3 0 2 0 2 otherW dstW = none := by
  refine ⟨by omega, ?_⟩
  unfold region_of_interest
  rw [if_neg (by omega)]

/-- C5: evaluation at the full extent.  With `K = (2,2,2)` and ranges
    `[0,2)` on every mode the spec's preconditions `start_k < end_k ≤ K_k`
    hold (first conjunct), but the code's strict assertion
    `end_index_k < K_k` fails on every mode and `region_of_interest` aborts
    instead of producing a copy of the source. -/
theorem region_of_interest_full_extent_rejected :
    ((0 < 2 ∧ 2 ≤ 2) ∧ (0 < 2 ∧ 2 ≤ 2) ∧ (0 < 2 ∧ 2 ≤ 2)) ∧
      region_of_interest 1 2 2 2 0 2 0 2 0 2 otherW dstW = none := by
  refine ⟨by omega, ?_⟩
  unfold region_of_interest
  rw [if_neg (by omega)]

/-- C7: evaluation at a failing input.  Factor `f = 1`, source extents
    `K = (3,1,1)`, destination extents `I = (⌈3/1⌉, ⌈1/1⌉, ⌈1/1⌉) = (3,1,1)`
    — the claim's shape hypotheses `I_k = ⌈K_k/f⌉` and `I_k ≤ K_k` all hold
    (first two conjuncts) — yet `subsampling` aborts, because its assertions
    compare `I1` (not `I2`, `I3`) against `K2` and `K3` and `I1 = 3 > 1 = K2`. -/
theorem subsampling_valid_shape_rejected :
    ((3 = strideCount 3 1 ∧ 1 = strideCount 1 1 ∧ 1 = strideCount 1 1) ∧
        (3 ≤ 3 ∧ 1 ≤ 1 ∧ 1 ≤ 1)) ∧
      subsampling 1 3 3 1 1 otherW dstW = none := by
  refine ⟨⟨⟨by norm_num [strideCount], by norm_num [strideCount],
    by norm_num [strideCount]⟩, by omega⟩, ?_⟩
  unfold subsampling
  rw [if_neg (by omega)]

/-- C8: evaluation at a failing input.  Nearest subsampling with factor 1,
    destination extents `I = (1,3,1)`, source extents `K = (1,2,1)`: the
    mode-2 shape precondition `I2 ≤ K2` is violated (`3 > 2`, first
    conjunct), but the code's assertions (`I1 ≤ K1`, `I1 ≤ K2`, `I1 ≤ K3`,
    with `I1 = 1`) all pass, the call completes, and destination mode-2
    row 0 has been overwritten with the source row (it no longer equals its
    pre-call value) — the violation is neither detected nor mutation-free. -/
theorem subsampling_shape_violation_undetected :
    ¬ (3 ≤ 2) ∧
      (subsampling 1 1 1 2 1 otherW dstW).map (fun r => r.u2 0 0) =
          some (otherW.u2 0 0) ∧
      otherW.u2 0 0 ≠ dstW.u2 0 0 := by
  refine ⟨by omega, ?_, by norm_num [otherW, dstW, U2W]⟩
  unfold subsampling
  rw [if_pos (by omega : (1 : ℕ) ≤ 1 ∧ (1 : ℕ) ≤ 2 ∧ (1 : ℕ) ≤ 1)]
  rw [Option.map_some']
  congr 1

/-- C1: for every in-range core cell `(j1,j2,j3)`, `derive_core` stores the
    triple sum over all `(i1,i2,i3)` of
    `U1[i1,j1]·U2[i2,j2]·U3[i3,j3]·data[i1,i2,i3]`; the single running
    accumulator of the C++ loops (kept in `double`, modelled exactly) indeed
    computes that full contraction. -/
theorem derive_core_is_triple_sum (J1 J2 J3 I1 I2 I3 : Nat) (data : Ten3)
    (U1 U2 U3 : Mat) (core0 : Ten3) (j1 j2 j3 : Nat)
    (h1 : j1 < J1) (h2 : j2 < J2) (h3 : j3 < J3) :
    derive_core J1 J2 J3 I1 I2 I3 data U1 U2 U3 core0 j1 j2 j3 =
      ∑ i1 ∈ Finset.range I1, ∑ i2 ∈ Finset.range I2, ∑ i3 ∈ Finset.range I3,
        U1 i1 j1 * U2 i2 j2 * U3 i3 j3 * data i1 i2 i3 := by
  unfold derive_core
  rw [if_pos ⟨h1, h2, h3⟩]
  simp only [foldl_add_range_sum, zero_add]
  rw [Finset.sum_comm]
  refine Finset.sum_congr rfl fun i1 _ => ?_
  exact Finset.sum_comm

/-- Witness for C1 at a concrete 2×2×2 tensor with a 1×1×1 core. -/
theorem derive_core_is_triple_sum_witness :
    (0 < 1 ∧ 0 < 1 ∧ 0 < 1) ∧
      derive_core 1 1 1 2 2 2 dataW U1W U2W U3W coreW 0 0 0 =
        ∑ i1 ∈ Finset.range 2, ∑ i2 ∈ Finset.range 2, ∑ i3 ∈ Finset.range 2,
          U1W i1 0 * U2W i2 0 * U3W i3 0 * dataW i1 i2 i3 :=
  ⟨⟨Nat.zero_lt_one, Nat.zero_lt_one, Nat.zero_lt_one⟩,
    derive_core_is_triple_sum 1 1 1 2 2 2 dataW U1W U2W U3W coreW 0 0 0
      Nat.zero_lt_one Nat.zero_lt_one Nat.zero_lt_one⟩

end Vmml
